import Mathlib

/-!
Verification of the Hydra multi-agent coordination layer (`hydra.py`).

This file gives a shallow embedding of the lock store, the permission
resolver, the snapshot debounce wait, the journal reader, the pre-commit
hook and the merge/rollback control flow, translated from the Python
source, and proves the behavioural claims about them.

Modelling conventions:
- The SQLite `locks` table becomes a `List LockRow`; SQL statements become
  list operations (`SELECT ... fetchone` is `List.find?`, `DELETE WHERE`
  is `List.filter`, `INSERT` is an append, `UPDATE WHERE file=` is a map).
  A transaction that raises rolls back, so an error result carries the
  pre-transaction table.
- The tmux liveness oracle (`shutil.which` plus `tmux has-session`)
  becomes a `TmuxOracle` record of an availability flag and a
  session-liveness predicate.
- `NULL` in the `tmux_session` column is `Option.none`; the empty string
  stored by the pre-commit hook is `some ""`.
-/

namespace Hydra

instance {e a : Type} [DecidableEq e] [DecidableEq a] : DecidableEq (Except e a) :=
  fun x y =>
    match x, y with
    | .error x1, .error y1 =>
        if h : x1 = y1 then isTrue (by rw [h])
        else isFalse (fun hh => h (by cases hh; rfl))
    | .error _, .ok _ => isFalse (fun hh => Except.noConfusion hh)
    | .ok _, .error _ => isFalse (fun hh => Except.noConfusion hh)
    | .ok x1, .ok y1 =>
        if h : x1 = y1 then isTrue (by rw [h])
        else isFalse (fun hh => h (by cases hh; rfl))

/-- One row of the `locks` table (schema in `_connect_db`):
`file TEXT PRIMARY KEY, agent TEXT, task TEXT, locked_at INTEGER,
tmux_session TEXT` where `tmux_session` may be NULL (`none`). -/
structure LockRow where
  file : String
  agent : String
  task : String
  lockedAt : Nat
  session : Option String
deriving DecidableEq, Repr

abbrev LockTable := List LockRow

/-- The liveness oracle: `available` is `shutil.which("tmux") is not None`
(`_tmux_available`); `running s` is the outcome of `tmux has-session -t s`
(exit code 0), with a vanished binary reported as not running. -/
structure TmuxOracle where
  available : Bool
  running : String → Bool

/-- `_tmux_session_exists`: returns `False` when tmux is unavailable,
otherwise the `has-session` probe result. -/
def tmuxSessionExists (o : TmuxOracle) (s : String) : Bool :=
  o.available && o.running s

/-- Whether `_cleanup_dead_locks` deletes a row: its session tag is
non-NULL, non-empty, and the named session does not exist. -/
def lockRowDead (o : TmuxOracle) (r : LockRow) : Bool :=
  match r.session with
  | none => false
  | some s => decide (s ≠ "") && ! tmuxSessionExists o s

/-- `_cleanup_dead_locks`: a no-op returning 0 when tmux is unavailable;
otherwise deletes every row whose non-empty session tag names a session
that does not exist, returning the surviving table and the number of rows
deleted.  The per-distinct-session `DELETE` loop of the source is
collapsed into one filter, which removes exactly the same rows and counts
the same total. -/
def cleanupDeadLocks (o : TmuxOracle) (t : LockTable) : LockTable × Nat :=
  if ! o.available then (t, 0)
  else ((t.filter fun r => ! lockRowDead o r), (t.filter fun r => lockRowDead o r).length)

/-- The insert-or-refresh step of `_acquire_locks`: `INSERT` of the row,
falling back to `UPDATE ... WHERE file=?` on `IntegrityError` (the file
column is the primary key). -/
def insertOrUpdateLock (t : LockTable) (f agent task : String) (now : Nat)
    (session : Option String) : LockTable :=
  if t.any fun r => r.file = f then
    t.map fun r => if r.file = f then ⟨f, agent, task, now, session⟩ else r
  else
    t ++ [⟨f, agent, task, now, session⟩]

/-- Result of `_acquire_locks`.  `conflict` models the raised `MctlError`
after `conn.rollback()`: it carries the complete internal conflict list
and the rolled-back (hence unchanged) table. -/
inductive AcquireResult where
  | conflict (conflicts : List (String × String × String)) (table : LockTable)
  | ok (table : LockTable)
deriving DecidableEq, Repr

/-- Lexicographic code-point comparison of character lists: the order
Python uses to compare `str` values. -/
def charListLe : List Char → List Char → Bool
  | [], _ => true
  | _ :: _, [] => false
  | a :: as, b :: bs =>
      if a.toNat < b.toNat then true
      else if b.toNat < a.toNat then false
      else charListLe as bs

/-- String comparison by code points, as in Python `sorted`. -/
def strLeB (a b : String) : Bool := charListLe a.data b.data

/-- `sorted(set(files))`. -/
def dedupSort (files : List String) : List String :=
  List.insertionSort (fun a b => strLeB a b = true) files.dedup

/-- `_acquire_locks`: inside one exclusive transaction, first runs the
dead-lock garbage collection, then checks every requested file for a row
owned by a different (agent, task); any conflict aborts the whole
transaction (rollback, so the table reverts to the input) carrying the
conflict triples; otherwise every requested file is inserted or refreshed
under the requesting owner. -/
def acquireLocks (o : TmuxOracle) (t : LockTable) (files : List String)
    (agent task : String) (session : Option String) (now : Nat) : AcquireResult :=
  let unique := dedupSort files
  let t1 := (cleanupDeadLocks o t).1
  let rows := t1.filter fun r => unique.contains r.file
  let conflicts := (rows.filter fun r => ! (r.agent = agent && r.task = task)).map
    fun r => (r.file, r.agent, r.task)
  if conflicts.isEmpty then
    .ok (unique.foldl (fun acc f => insertOrUpdateLock acc f agent task now session) t1)
  else
    .conflict conflicts t

/-- The conflict triples the raised `MctlError` message actually names:
the source formats `conflicts[:20]` and appends only a count
(`... and N more`) for the rest. -/
def acquireReportedConflicts : AcquireResult → List (String × String × String)
  | .conflict cs _ => cs.take 20
  | .ok _ => []

/-- `_release_locks`: `DELETE FROM locks WHERE agent=? AND task=?`,
returning the count deleted. -/
def releaseLocks (t : LockTable) (agent task : String) : LockTable × Nat :=
  ((t.filter fun r => ! (r.agent = agent && r.task = task)),
   (t.filter fun r => r.agent = agent && r.task = task).length)

/-! ### Permission resolver (`_validate_allow_pattern`, `_is_glob_pattern`,
`fnmatch`, `_expand_allow`, `_path_is_allowed`)

String operations are modelled over `String.data` (the character list) so
they compute by kernel reduction; each mirrors the Python string method
named in its doc comment. -/

/-- Python `pattern.replace("\\", "/")`. -/
def backslashToSlash (s : String) : String :=
  ⟨s.data.map fun c => if c = '\\' then '/' else c⟩

/-- Python `norm.lstrip("./")`: strips leading characters drawn from the
set `.` and `/`. -/
def lstripDotSlash (s : String) : String :=
  ⟨s.data.dropWhile fun c => c = '.' || c = '/'⟩

/-- Python `s.startswith(p)`. -/
def strStartsWith (s p : String) : Bool := p.data.isPrefixOf s.data

/-- Python `needle in haystack` on strings: substring containment. -/
def listIsInfixOf (needle : List Char) : List Char → Bool
  | [] => needle.isEmpty
  | c :: rest => needle.isPrefixOf (c :: rest) || listIsInfixOf needle rest

/-- `_validate_allow_pattern`: rejects the empty pattern, an absolute
pattern (`os.path.isabs`, i.e. a leading `/`), and — after turning
backslashes into slashes — a pattern that starts with `../`, contains
`/../`, or equals `..`; otherwise returns the pattern with leading `.`
and `/` characters stripped. -/
def validateAllowPattern (p : String) : Except String String :=
  if p = "" then .error "Empty allow pattern is not allowed."
  else if strStartsWith p "/" then .error "Allow pattern must be relative"
  else
    let norm := backslashToSlash p
    if strStartsWith norm "../" || listIsInfixOf "/../".data norm.data || norm = ".." then
      .error "Allow pattern must not escape repo root"
    else .ok (lstripDotSlash norm)

/-- `_is_glob_pattern`: contains `**`, or any of the characters
`*`, `?`, `[`, `]`. -/
def isGlobPat (p : String) : Bool :=
  listIsInfixOf "**".data p.data ||
    p.data.any fun c => c = '*' || c = '?' || c = '[' || c = ']'

/-- Scan for the `]` closing a character class, returning the class body
and the remainder; `none` when the class is unterminated. -/
def findCloseBracket : List Char → Option (List Char × List Char)
  | [] => none
  | ']' :: rest => some ([], rest)
  | c :: rest =>
      match findCloseBracket rest with
      | none => none
      | some (body, after) => some (c :: body, after)

/-- Parse a `fnmatch` character class after the opening `[`: an optional
leading `!` negates; a `]` directly after (or after the `!`) is a literal
member; an unterminated class makes the `[` literal (`none`). -/
def parseCharClass (ps : List Char) : Option (Bool × List Char × List Char) :=
  match ps with
  | '!' :: ps1 =>
      match ps1 with
      | ']' :: r2 =>
          match findCloseBracket r2 with
          | none => none
          | some (body, after) => some (true, ']' :: body, after)
      | _ =>
          match findCloseBracket ps1 with
          | none => none
          | some (body, after) => some (true, body, after)
  | ']' :: r2 =>
      match findCloseBracket r2 with
      | none => none
      | some (body, after) => some (false, ']' :: body, after)
  | _ =>
      match findCloseBracket ps with
      | none => none
      | some (body, after) => some (false, body, after)

/-- Membership of a character in a class body: `a-b` is a code-point
range, a `-` at either end is literal. -/
def charInClass : List Char → Char → Bool
  | [], _ => false
  | a :: '-' :: b :: rest, c =>
      (a.toNat ≤ c.toNat && c.toNat ≤ b.toNat) || charInClass rest c
  | a :: rest, c => (a = c) || charInClass rest c

/-- Shell-style glob matching over whole strings, the semantics of
Python `fnmatch.fnmatch` after `translate`: `*` matches any sequence
(including `/` — fnmatch is not path-aware), `?` any single character,
`[...]`/`[!...]` a character class, everything else itself. -/
def globMatch (p : List Char) (s : List Char) : Bool :=
  match p, s with
  | [], [] => true
  | [], _ :: _ => false
  | '*' :: ps, s =>
      globMatch ps s ||
        (match s with
         | [] => false
         | _ :: s' => globMatch ('*' :: ps) s')
  | '?' :: ps, s =>
      (match s with
       | [] => false
       | _ :: s' => globMatch ps s')
  | '[' :: ps, s =>
      (match parseCharClass ps with
       | some (neg, body, rest) =>
          (match s with
           | [] => false
           | c :: s' => (neg != charInClass body c) && globMatch rest s')
       | none =>
          (match s with
           | '[' :: s' => globMatch ps s'
           | _ => false))
  | c :: ps, s =>
      (match s with
       | d :: s' => (d = c) && globMatch ps s'
       | [] => false)
  termination_by (s.length, p.length)

/-- `fnmatch.fnmatch(name, pat)` on a POSIX system (no case folding). -/
def fnmatchB (name pat : String) : Bool := globMatch pat.data name.data

/-- The pattern loop of `_path_is_allowed`: validate each raw pattern (a
validation failure propagates as a raised error), and return `True` at
the first pattern that `fnmatch`-matches the normalized path. -/
def pathIsAllowedGo (np : String) : List String → Except String Bool
  | [] => .ok false
  | raw :: rest =>
      match validateAllowPattern raw with
      | .error e => .error e
      | .ok pat => if fnmatchB np pat then .ok true else pathIsAllowedGo np rest

/-- `_path_is_allowed`: normalizes backslashes in the path, then tries
each raw allow pattern in order. -/
def pathIsAllowed (path : String) (allow : List String) : Except String Bool :=
  pathIsAllowedGo (backslashToSlash path) allow

/-- Split a character list at `/`, keeping empty segments (Python
`str.split("/")` shape, as `pathlib` sees the parts). -/
def splitSlash : List Char → List (List Char)
  | [] => [[]]
  | '/' :: rest => [] :: splitSlash rest
  | c :: rest =>
      match splitSlash rest with
      | [] => [[c]]
      | seg :: segs => (c :: seg) :: segs

/-- `pathlib.Path(s).as_posix()` for a relative path: drops empty and `.`
segments (keeping `..`), joins with `/`; the empty path renders as `.`. -/
def posixNorm (s : String) : String :=
  let segs := (splitSlash s.data).filter fun seg => ! (seg = [] || seg = ['.'])
  if segs.isEmpty then "." else ⟨List.intercalate ['/'] segs⟩

/-- The filesystem collaborators used by `_expand_allow` (spec §6 calls
the filesystem an external collaborator): `glob` is
`glob.glob(·, recursive=True)`, `resolve` is `Path.resolve` (`none` for
`FileNotFoundError`), `isFile` is `Path.is_file` — all answering about
absolute paths in normalized string form. -/
structure GlobFs where
  glob : String → List String
  resolve : String → Option String
  isFile : String → Bool

/-- `rp.relative_to(root)` then `.as_posix()`: `.` when equal, the
stripped suffix when `rp` sits under `root`, failure (skip) otherwise. -/
def relativeToRoot (rp root : String) : Option String :=
  if rp = root then some "."
  else if strStartsWith rp (root ++ "/") then some ⟨rp.data.drop (root.data.length + 1)⟩
  else none

/-- One validated pattern of `_expand_allow`: a literal (non-glob)
pattern contributes itself (normalized by `Path(...).as_posix()`) whether
or not it exists; a glob pattern contributes each glob result that
resolves, is a regular file, and lies inside the repository root. -/
def expandOnePat (fs : GlobFs) (root : String) (pat : String) : List String :=
  if ! isGlobPat pat then [posixNorm pat]
  else
    (fs.glob (root ++ "/" ++ pat)).filterMap fun m =>
      match fs.resolve m with
      | none => none
      | some rp => if fs.isFile rp then relativeToRoot rp root else none

/-- The pattern loop of `_expand_allow`, accumulating the `locked` set. -/
def expandAllowGo (fs : GlobFs) (root : String) :
    List String → List String → Except String (List String)
  | [], acc => .ok (dedupSort acc)
  | raw :: rest, acc =>
      match validateAllowPattern raw with
      | .error e => .error e
      | .ok pat => expandAllowGo fs root rest (acc ++ expandOnePat fs root pat)

/-- `_expand_allow`: validate and expand every pattern, returning
`sorted(locked)` — a sorted, duplicate-free list. -/
def expandAllow (fs : GlobFs) (root : String) (allow : List String) :
    Except String (List String) :=
  expandAllowGo fs root allow []

/-- Whether an `Except` is the raised-error outcome. -/
def exceptIsError {ε α : Type} : Except ε α → Bool
  | .error _ => true
  | .ok _ => false

/-- 21 distinct files, every one locked by the other owner `(b, t2)`. -/
def truncationCexFiles : List String :=
  ["f10", "f11", "f12", "f13", "f14", "f15", "f16", "f17", "f18", "f19", "f20",
   "f21", "f22", "f23", "f24", "f25", "f26", "f27", "f28", "f29", "f30"]

/-- The outcome of requesting those 21 files for owner `(a, t1)`. -/
def truncationCexResult : AcquireResult :=
  acquireLocks ⟨false, fun _ => false⟩
    (truncationCexFiles.map fun f => ⟨f, "b", "t2", 0, none⟩)
    truncationCexFiles "a" "t1" none 5

/-- A filesystem with no files, used to exercise expansion of a literal
pattern whose path does not exist. -/
def emptyGlobFs : GlobFs := ⟨fun _ => [], fun _ => none, fun _ => false⟩

/-- A one-file filesystem: the glob probe answers `/repo/src/a.py`, which
resolves to itself and is a regular file. -/
def oneFileGlobFs : GlobFs :=
  ⟨fun _ => ["/repo/src/a.py"], fun m => some m, fun _ => true⟩

/-! ### Pre-commit hook (`_hook_pre_commit`) -/

/-- The allow-list comprehension of the hook:
`[p for p in staged if not _path_is_allowed(p, allow_patterns)]`, with a
pattern-validation error inside `_path_is_allowed` propagating as a
raised error at the first staged path that triggers it. -/
def stagedNotAllowed (allow : List String) : List String → Except String (List String)
  | [] => .ok []
  | p :: rest =>
      match pathIsAllowed p allow with
      | .error e => .error e
      | .ok b =>
          match stagedNotAllowed allow rest with
          | .error e => .error e
          | .ok l => .ok (if b then l else p :: l)

/-- The rejections `_hook_pre_commit` can raise. -/
inductive HookReject where
  | invalidPat (msg : String)
  | notAllowed (paths : List String)
  | lockConflicts (conflicts : List (String × String × String))
deriving DecidableEq, Repr

/-- The lock loop of `_hook_pre_commit`: for each staged path in file
order, a path with no lock row gets a fresh row owned by the committing
(agent, task) with an empty session tag; a row owned by someone else is
recorded as a conflict and the loop continues; a row owned by the
committer is left untouched.  Lookups run against the transaction state,
so they see earlier inserts. -/
def hookLockLoop (agent task : String) (now : Nat) :
    List String → LockTable → LockTable × List (String × String × String)
  | [], t => (t, [])
  | rel :: rest, t =>
      match t.find? fun r => r.file = rel with
      | none =>
          hookLockLoop agent task now rest (t ++ [⟨rel, agent, task, now, some ""⟩])
      | some r =>
          if r.agent = agent ∧ r.task = task then hookLockLoop agent task now rest t
          else
            ((hookLockLoop agent task now rest t).1,
              (rel, r.agent, r.task) :: (hookLockLoop agent task now rest t).2)

/-- `_hook_pre_commit` (agent and task set, hooks not skipped, DB
present): nothing staged succeeds untouched; a staged path outside the
task allow list blocks the commit before the lock transaction; otherwise
the lock loop runs and any conflict blocks the commit with the conflict
list, rolling back the inserts (the table in scope stays the input);
with no conflict the inserts commit. -/
def hookPreCommit (t : LockTable) (staged : List String) (agent task : String)
    (allow : List String) (now : Nat) : Except HookReject LockTable :=
  if staged.isEmpty then .ok t
  else
    match stagedNotAllowed allow staged with
    | .error e => .error (.invalidPat e)
    | .ok bad =>
        if ! bad.isEmpty then .error (.notAllowed bad)
        else
          if (hookLockLoop agent task now staged t).2.isEmpty then
            .ok (hookLockLoop agent task now staged t).1
          else .error (.lockConflicts (hookLockLoop agent task now staged t).2)

/-! ### Journal (`_read_journal_entries`, `cmd_changes`) -/

/-- The five fields a journal line yields when `json.loads` parses it to
a dict and the field coercions (`int(obj.get("ts") or 0)` and the string
casts) succeed. -/
structure JournalFields where
  ts : Int
  sha : String
  agent : String
  task : String
  files : String
deriving DecidableEq, Repr

/-- One parsed journal record; `index` is the 0-based line number the
record was read from (`enumerate(f)`). -/
structure JournalEntry where
  ts : Int
  sha : String
  agent : String
  task : String
  files : String
  index : Nat
deriving DecidableEq, Repr

/-- Python `raw.strip()`. -/
def pyStrip (s : String) : String :=
  ⟨((s.data.dropWhile fun c => c.isWhitespace).reverse.dropWhile
      fun c => c.isWhitespace).reverse⟩

/-- The line loop of `_read_journal_entries`, carrying the enumeration
index.  `decode` models the external `json.loads`-plus-coercions step on
a stripped line: `none` covers a JSON decode error, a non-dict value, or
a failing field coercion — all of which count one invalid line and skip;
a blank (stripped-empty) line is skipped without counting. -/
def readJournalGo (decode : String → Option JournalFields) :
    List String → Nat → List JournalEntry × Nat
  | [], _ => ([], 0)
  | raw :: rest, idx =>
      let res := readJournalGo decode rest (idx + 1)
      if pyStrip raw = "" then res
      else
        match decode (pyStrip raw) with
        | none => (res.1, res.2 + 1)
        | some f => (⟨f.ts, f.sha, f.agent, f.task, f.files, idx⟩ :: res.1, res.2)

/-- `_read_journal_entries`: parsed entries plus the invalid-line count. -/
def readJournalEntries (decode : String → Option JournalFields)
    (lines : List String) : List JournalEntry × Nat :=
  readJournalGo decode lines 0

/-- The ordering key of `cmd_changes`:
`filtered.sort(key=lambda x: (int(x.ts), int(x.index)))`. -/
def entryLe (a b : JournalEntry) : Prop :=
  a.ts < b.ts ∨ (a.ts = b.ts ∧ a.index ≤ b.index)

instance entryLeDecidable : DecidableRel entryLe := fun a b => by
  unfold entryLe
  infer_instance

/-- The `--since` / `--agent` / `--task` filter of `cmd_changes`
(an entry is kept unless its timestamp precedes the cutoff or a set
filter mismatches). -/
def changesFilter (sinceTs : Option Int) (agentF taskF : Option String)
    (e : JournalEntry) : Bool :=
  (match sinceTs with
   | none => true
   | some s => ! (e.ts < s : Bool)) &&
  (match agentF with
   | none => true
   | some a => e.agent = a) &&
  (match taskF with
   | none => true
   | some tk => e.task = tk)

/-- The record pipeline of `cmd_changes`: read the journal, filter, and
sort by the `(ts, index)` key. -/
def cmdChanges (decode : String → Option JournalFields) (lines : List String)
    (sinceTs : Option Int) (agentF taskF : Option String) : List JournalEntry :=
  List.insertionSort entryLe
    ((readJournalEntries decode lines).1.filter (changesFilter sinceTs agentF taskF))

/-! ### Merge failure handling (`cmd_merge`, conflict branch) -/

/-- A porcelain status line marking an unmerged path:
`line.startswith("UU ") or ("AA ") or ("DD ")`. -/
def isUnmergedLine (l : String) : Bool :=
  strStartsWith l "UU " || strStartsWith l "AA " || strStartsWith l "DD "

/-- Python `str.split()` accumulator: splits on whitespace runs and
drops empty pieces. -/
def wordsAux : List Char → List Char → List (List Char)
  | [], cur => if cur.isEmpty then [] else [cur.reverse]
  | c :: rest, cur =>
      if c.isWhitespace then
        if cur.isEmpty then wordsAux rest [] else cur.reverse :: wordsAux rest []
      else wordsAux rest (c :: cur)

/-- Python `s.split()` (no separator argument). -/
def pySplitWs (s : String) : List String := (wordsAux s.data []).map fun l => ⟨l⟩

/-- `line.split()[-1]` as used on a conflict status line (every such
line starts with a two-letter code and a space, so the token list is
never empty; an empty list maps to `""`). -/
def lastToken (l : String) : String :=
  match (pySplitWs l).getLast? with
  | none => ""
  | some w => w

/-- What the failed-`git merge` branch of `cmd_merge` decides and which
later effects run.  `exitCode` 1 is returned directly on a conflict;
the non-conflict branch calls `_abort_merge` and raises `HydraError`,
which `main` turns into exit code 2.  Lock release and branch deletion
sit after the merge block, so neither runs on either failure path. -/
structure MergeFailOutcome where
  exitCode : Nat
  mergeAborted : Bool
  locksReleased : Bool
  branchDeleted : Bool
  conflictFiles : List String
deriving DecidableEq, Repr

/-- The `proc.returncode != 0` handler of `cmd_merge` (identical in the
squash and no-ff arms): inspect `git status --porcelain` lines for
unmerged markers; with markers, report the conflicting paths and return
1 leaving the merge in progress; without, abort the merge and raise. -/
def mergeFailureStep (statusLines : List String) : MergeFailOutcome :=
  if statusLines.any isUnmergedLine then
    { exitCode := 1, mergeAborted := false, locksReleased := false,
      branchDeleted := false,
      conflictFiles := (statusLines.filter isUnmergedLine).map lastToken }
  else
    { exitCode := 2, mergeAborted := true, locksReleased := false,
      branchDeleted := false, conflictFiles := [] }

/-! ### Rollback (`cmd_rollback`) -/

/-- The git-level outcomes `cmd_rollback` observes, one field per
subprocess call: `branchExists` is `_git_ref_exists` on the agent
branch ref, `isAncestor` is `git merge-base --is-ancestor to_commit
branch`, `worktreeClean` is `_ensure_worktree_clean` not raising,
`countInRange` is `git rev-list --count to_commit..HEAD`, `revertOk` is
`git revert --no-commit to_commit..HEAD` exiting 0, `newSha` the commit
the final `git commit` creates, and `history` the commits of the agent
branch, newest first. -/
structure RollbackEnv where
  branchExists : Bool
  isAncestor : Bool
  worktreeClean : Bool
  countInRange : Nat
  revertOk : Bool
  newSha : String
  history : List String
deriving DecidableEq, Repr

/-- Outcome of `cmd_rollback` together with the agent branch history it
leaves behind: `error` is a raised `HydraError` (exit 2), `noop` prints
`Nothing to rollback` and exits 0, `ok` prints the new commit id and
exits 0. -/
inductive RollbackResult where
  | error (history : List String)
  | noop (history : List String)
  | ok (newSha : String) (history : List String)
deriving DecidableEq, Repr

/-- `cmd_rollback` control flow: missing branch, non-ancestor target and
dirty worktree raise before any revert; an empty `to..HEAD` range is a
successful no-op; a failed revert runs `_abort_revert` and raises with
the history untouched; a successful revert commits exactly one combined
revert commit on top of the existing history. -/
def cmdRollback (env : RollbackEnv) : RollbackResult :=
  if ! env.branchExists then .error env.history
  else if ! env.isAncestor then .error env.history
  else if ! env.worktreeClean then .error env.history
  else if env.countInRange = 0 then .noop env.history
  else if ! env.revertOk then .error env.history
  else .ok env.newSha (env.newSha :: env.history)

/-! ### Snapshot debounce wait (`_wait_for_worktree_quiet`)

Wall-clock time is rational; `env` answers, for a polling instant, the
`git status --porcelain` emptiness and the maximum modification time
among the changed files (`0` when none could be stat-ed, matching the
`latest_mtime = 0.0` start).  A sleep of `d` advances the clock by
exactly `d`; `fuel` bounds the number of loop iterations so the
function is total, and the termination claim is that the `fuelOut`
marker is unreachable with enough fuel. -/

structure WtEnv where
  dirty : ℚ → Bool
  latestMtime : ℚ → ℚ

inductive WaitResult where
  | quiet
  | timeout
  | fuelOut
deriving DecidableEq, Repr

/-- The polling loop of `_wait_for_worktree_quiet`: return when the tree
is clean or the newest mtime has been stable for `debounce` (with a
zero mtime treated as already quiet); raise the timeout once
`maxWait` wall-clock seconds have elapsed since `start`; otherwise
sleep `min(poll, max(0.05, debounce - quiet_for))` and re-check. -/
def waitLoop (env : WtEnv) (debounce maxWait poll start : ℚ) :
    Nat → ℚ → WaitResult
  | 0, _ => .fuelOut
  | fuel + 1, now =>
      if env.dirty now = false then .quiet
      else
        let lm := env.latestMtime now
        let quietFor := if lm = 0 then debounce else now - lm
        if debounce ≤ quietFor then .quiet
        else if maxWait ≤ now - start then .timeout
        else
          waitLoop env debounce maxWait poll start fuel
            (now + min poll (max (1 / 20) (debounce - quietFor)))

/-- `_wait_for_worktree_quiet`: an immediate return for a non-positive
debounce, else the polling loop from time 0. -/
def waitForWorktreeQuiet (env : WtEnv) (debounce maxWait poll : ℚ)
    (fuel : Nat) : WaitResult :=
  if debounce ≤ 0 then .quiet else waitLoop env debounce maxWait poll 0 fuel 0

/-! ### Concrete fixtures used by witnesses -/

/-- A journal decode table: two well-formed lines sharing a timestamp,
anything else malformed. -/
def twoLineDecode : String → Option JournalFields := fun s =>
  if s = "entry-one" then some ⟨5, "sha1", "a", "t1", "x.py"⟩
  else if s = "entry-two" then some ⟨5, "sha2", "a", "t1", "y.py"⟩
  else none

/-- Three journal lines: two valid entries around one malformed line. -/
def twoLineJournal : List String := ["entry-one", "junk", "entry-two"]

/-- A workspace under continuous writes: always dirty, newest mtime
never older than a second before the probe. -/
def contWriteEnv : WtEnv := ⟨fun _ => true, fun t => max t 1⟩

/-- A rollback run where every git step succeeds and three commits sit
in the range. -/
def rollbackOkEnv : RollbackEnv :=
  ⟨true, true, true, 3, true, "r9", ["c3", "c2", "c1"]⟩

end Hydra

namespace Hydra

/-- The full conflict list carried by an `AcquireResult`. -/
def acquireConflicts : AcquireResult → List (String × String × String)
  | .conflict cs _ => cs
  | .ok _ => []

/-- Whether an `AcquireResult` is the raised-conflict outcome. -/
def acquireIsConflict : AcquireResult → Bool
  | .conflict _ _ => true
  | .ok _ => false

/-- A row of `t` claims file `f` for owner `(a, tk)`. -/
def hasOwner (t : LockTable) (f a tk : String) : Prop :=
  ∃ r ∈ t, r.file = f ∧ r.agent = a ∧ r.task = tk

theorem mem_dedupSort {x : String} {l : List String} : x ∈ dedupSort l ↔ x ∈ l := by
  unfold dedupSort
  rw [(List.perm_insertionSort _ _).mem_iff, List.mem_dedup]

theorem insertOrUpdate_hasOwner_self (t : LockTable) (f a tk : String) (n : Nat)
    (s : Option String) : hasOwner (insertOrUpdateLock t f a tk n s) f a tk := by
  unfold insertOrUpdateLock hasOwner
  split
  · next h =>
    obtain ⟨r, hr, hf⟩ := by simpa using h
    exact ⟨⟨f, a, tk, n, s⟩, List.mem_map.mpr ⟨r, hr, by simp [hf]⟩, rfl, rfl, rfl⟩
  · exact ⟨⟨f, a, tk, n, s⟩, List.mem_append_right _ (by simp), rfl, rfl, rfl⟩

theorem insertOrUpdate_hasOwner_preserve {t : LockTable} {f a tk : String}
    (g : String) (n : Nat) (s : Option String) (h : hasOwner t f a tk) :
    hasOwner (insertOrUpdateLock t g a tk n s) f a tk := by
  obtain ⟨r, hr, hf, ha, htk⟩ := h
  unfold insertOrUpdateLock
  split
  · by_cases hfg : r.file = g
    · exact ⟨⟨g, a, tk, n, s⟩, List.mem_map.mpr ⟨r, hr, by simp [hfg]⟩,
        by simp [← hfg, hf], rfl, rfl⟩
    · exact ⟨r, List.mem_map.mpr ⟨r, hr, by simp [hfg]⟩, hf, ha, htk⟩
  · exact ⟨r, List.mem_append_left _ hr, hf, ha, htk⟩

theorem foldl_insertOrUpdate_grant (l : List String) (t : LockTable)
    (a tk : String) (n : Nat) (s : Option String) :
    (∀ f ∈ l,
      hasOwner (l.foldl (fun acc f => insertOrUpdateLock acc f a tk n s) t) f a tk) ∧
    (∀ f, hasOwner t f a tk →
      hasOwner (l.foldl (fun acc f => insertOrUpdateLock acc f a tk n s) t) f a tk) := by
  induction l generalizing t with
  | nil => exact ⟨by simp, fun f h => by simpa using h⟩
  | cons g l ih =>
    simp only [List.foldl_cons]
    refine ⟨?_, ?_⟩
    · intro f hf
      rcases List.mem_cons.mp hf with rfl | hf'
      · exact (ih _).2 f (insertOrUpdate_hasOwner_self t f a tk n s)
      · exact (ih _).1 f hf'
    · intro f hfo
      exact (ih _).2 f (insertOrUpdate_hasOwner_preserve g n s hfo)

end Hydra

namespace Hydra

/-- C3: the dead-lock garbage collector never deletes a row whose session
the oracle reports running; with the oracle available it deletes every
row with a non-empty session tag confirmed not running; with the oracle
unavailable it deletes nothing and returns 0. -/
theorem cleanup_dead_locks_spec (o : TmuxOracle) (t : LockTable) :
    (∀ r ∈ t, ∀ s, r.session = some s → o.running s = true →
      r ∈ (cleanupDeadLocks o t).1) ∧
    (o.available = true → ∀ r ∈ t, ∀ s, r.session = some s → s ≠ "" →
      o.running s = false → r ∉ (cleanupDeadLocks o t).1) ∧
    (o.available = false → cleanupDeadLocks o t = (t, 0)) := by
  refine ⟨?_, ?_, ?_⟩
  · intro r hr s hs hrun
    unfold cleanupDeadLocks
    cases hav : o.available with
    | false => simpa using hr
    | true =>
      simp only [Bool.not_true, Bool.false_eq_true, if_false]
      refine List.mem_filter.mpr ⟨hr, ?_⟩
      simp [lockRowDead, hs, tmuxSessionExists, hav, hrun]
  · intro hav r hr s hs hne hrun hmem
    unfold cleanupDeadLocks at hmem
    rw [hav] at hmem
    simp only [Bool.not_true, Bool.false_eq_true, if_false] at hmem
    have := (List.mem_filter.mp hmem).2
    simp [lockRowDead, hs, tmuxSessionExists, hav, hrun, hne] at this
  · intro hav
    unfold cleanupDeadLocks
    rw [hav]
    simp

/-- Witness for C3 at concrete inputs. -/
theorem cleanup_dead_locks_spec_witness :
    (⟨"a.txt", "a", "t1", 0, some "s1"⟩ : LockRow) ∈
      (cleanupDeadLocks ⟨true, fun s => s = "s1"⟩
        [⟨"a.txt", "a", "t1", 0, some "s1"⟩, ⟨"b.txt", "b", "t2", 0, some "s2"⟩]).1 ∧
    (⟨"b.txt", "b", "t2", 0, some "s2"⟩ : LockRow) ∉
      (cleanupDeadLocks ⟨true, fun s => s = "s1"⟩
        [⟨"a.txt", "a", "t1", 0, some "s1"⟩, ⟨"b.txt", "b", "t2", 0, some "s2"⟩]).1 ∧
    cleanupDeadLocks ⟨false, fun _ => false⟩ [⟨"c.txt", "c", "t3", 0, some "s9"⟩] =
      ([⟨"c.txt", "c", "t3", 0, some "s9"⟩], 0) := by
  refine ⟨?_, ?_, ?_⟩
  · exact (cleanup_dead_locks_spec ⟨true, fun s => s = "s1"⟩
      [⟨"a.txt", "a", "t1", 0, some "s1"⟩, ⟨"b.txt", "b", "t2", 0, some "s2"⟩]).1
      _ (by simp) "s1" rfl (by decide)
  · exact (cleanup_dead_locks_spec ⟨true, fun s => s = "s1"⟩
      [⟨"a.txt", "a", "t1", 0, some "s1"⟩, ⟨"b.txt", "b", "t2", 0, some "s2"⟩]).2.1
      rfl _ (by simp) "s2" rfl (by decide) (by decide)
  · exact (cleanup_dead_locks_spec ⟨false, fun _ => false⟩
      [⟨"c.txt", "c", "t3", 0, some "s9"⟩]).2.2 rfl

/-- C9: a lock row whose session tag is NULL (`none`) or the empty string
is never deleted by dead-lock garbage collection, whatever the oracle
says; such rows are exactly those created by a lock acquisition with no
session (workspace open) or by the pre-commit hook (empty tag). -/
theorem cleanup_dead_locks_keeps_untagged (o : TmuxOracle) (t : LockTable)
    (r : LockRow) (hr : r ∈ t) (hs : r.session = none ∨ r.session = some "") :
    r ∈ (cleanupDeadLocks o t).1 := by
  unfold cleanupDeadLocks
  cases hav : o.available with
  | false => simpa using hr
  | true =>
    simp only [Bool.not_true, Bool.false_eq_true, if_false]
    refine List.mem_filter.mpr ⟨hr, ?_⟩
    rcases hs with h | h <;> simp [lockRowDead, h]

/-- C1 (amended): lock acquisition is all-or-nothing.  If, after the
opportunistic garbage collection that opens the transaction, any
requested file has a lock row owned by a different (agent, task), the
call raises a conflict error computed from the complete conflict set —
though the raised message names only the first 20 triples — and the
rollback leaves the lock table unchanged; otherwise every requested file
ends up locked by the requesting owner, never a partial grant. -/
theorem acquire_locks_all_or_nothing (o : TmuxOracle) (t : LockTable)
    (files : List String) (agent task : String) (session : Option String) (now : Nat) :
    (∀ cs t', acquireLocks o t files agent task session now = .conflict cs t' →
        t' = t ∧
        (∀ r ∈ (cleanupDeadLocks o t).1, r.file ∈ files →
          ¬(r.agent = agent ∧ r.task = task) → (r.file, r.agent, r.task) ∈ cs) ∧
        (∀ c ∈ cs, ∃ r, r ∈ (cleanupDeadLocks o t).1 ∧ r.file ∈ files ∧
          c = (r.file, r.agent, r.task) ∧ ¬(r.agent = agent ∧ r.task = task)) ∧
        acquireReportedConflicts (acquireLocks o t files agent task session now) =
          cs.take 20) ∧
    (∀ t', acquireLocks o t files agent task session now = .ok t' →
        ∀ f ∈ files, hasOwner t' f agent task) ∧
    ((∃ r ∈ (cleanupDeadLocks o t).1, r.file ∈ files ∧ ¬(r.agent = agent ∧ r.task = task))
      ↔ ∃ cs, acquireLocks o t files agent task session now = .conflict cs t) := by
  have hmis_iff : ∀ r : LockRow,
      ((! (decide (r.agent = agent) && decide (r.task = task))) = true) ↔
        ¬(r.agent = agent ∧ r.task = task) := by
    intro r
    simp only [Bool.not_and, Bool.or_eq_true, Bool.not_eq_eq_eq_not, Bool.not_true,
      decide_eq_false_iff_not]
    tauto
  have hmemconf : ∀ c : String × String × String,
      (c ∈ (((cleanupDeadLocks o t).1.filter
          fun r => (dedupSort files).contains r.file).filter
            fun r => ! (r.agent = agent && r.task = task)).map
              fun r => (r.file, r.agent, r.task)) ↔
      ∃ r, r ∈ (cleanupDeadLocks o t).1 ∧ r.file ∈ files ∧
        c = (r.file, r.agent, r.task) ∧ ¬(r.agent = agent ∧ r.task = task) := by
    intro c
    simp only [List.mem_map, List.mem_filter, List.elem_eq_mem, decide_eq_true_eq,
      mem_dedupSort, hmis_iff]
    constructor
    · rintro ⟨r, ⟨⟨hr, hfile⟩, hmis⟩, rfl⟩
      exact ⟨r, hr, hfile, rfl, hmis⟩
    · rintro ⟨r, hr, hfile, rfl, hmis⟩
      exact ⟨r, ⟨⟨hr, hfile⟩, hmis⟩, rfl⟩
  unfold acquireLocks
  simp only []
  split
  · next hempty =>
    refine ⟨?_, ?_, ?_⟩
    · intro cs t' h
      exact AcquireResult.noConfusion h
    · intro t' h
      cases h
      intro f hf
      exact (foldl_insertOrUpdate_grant (dedupSort files) (cleanupDeadLocks o t).1
        agent task now session).1 f (mem_dedupSort.mpr hf)
    · constructor
      · rintro ⟨r, hr, hfile, hmis⟩
        exfalso
        have hc : (r.file, r.agent, r.task) ∈
            (((cleanupDeadLocks o t).1.filter
              fun r => (dedupSort files).contains r.file).filter
                fun r => ! (r.agent = agent && r.task = task)).map
                  fun r => (r.file, r.agent, r.task) :=
          (hmemconf _).mpr ⟨r, hr, hfile, rfl, hmis⟩
        rw [List.isEmpty_iff] at hempty
        rw [hempty] at hc
        cases hc
      · rintro ⟨cs, h⟩
        exact AcquireResult.noConfusion h
  · next hempty =>
    refine ⟨?_, ?_, ?_⟩
    · intro cs t' h
      injection h with h1 h2
      subst h1
      subst h2
      refine ⟨rfl, fun r hr hfile hmis => (hmemconf _).mpr ⟨r, hr, hfile, rfl, hmis⟩,
        fun c hc => (hmemconf c).mp hc, rfl⟩
    · intro t' h
      exact AcquireResult.noConfusion h
    · constructor
      · intro _
        exact ⟨_, rfl⟩
      · intro _
        rw [List.isEmpty_iff] at hempty
        rcases List.exists_mem_of_ne_nil _ hempty with ⟨c, hc⟩
        rcases (hmemconf c).mp hc with ⟨r, hr, hfile, _, hmis⟩
        exact ⟨r, hr, hfile, hmis⟩

/-- Witness for C1 at concrete inputs: a conflicting request is refused
with the holder reported and the table untouched; a clean request grants
every file. -/
theorem acquire_locks_all_or_nothing_witness :
    (acquireLocks ⟨false, fun _ => false⟩ [⟨"src/x.py", "a", "t1", 3, none⟩]
        ["src/x.py"] "b" "t2" none 9 =
      .conflict [("src/x.py", "a", "t1")] [⟨"src/x.py", "a", "t1", 3, none⟩]) ∧
    (("src/x.py", "a", "t1") ∈ acquireConflicts
      (acquireLocks ⟨false, fun _ => false⟩ [⟨"src/x.py", "a", "t1", 3, none⟩]
        ["src/x.py"] "b" "t2" none 9)) ∧
    hasOwner (match acquireLocks ⟨false, fun _ => false⟩ [] ["src/y.py"] "a" "t1" none 9 with
      | .ok t' => t'
      | .conflict _ t' => t') "src/y.py" "a" "t1" := by
  refine ⟨by decide, by decide, ?_⟩
  have h := (acquire_locks_all_or_nothing ⟨false, fun _ => false⟩ [] ["src/y.py"]
    "a" "t1" none 9).2.1
  have hres : acquireLocks ⟨false, fun _ => false⟩ [] ["src/y.py"] "a" "t1" none 9 =
      .ok [⟨"src/y.py", "a", "t1", 9, none⟩] := by decide
  rw [hres]
  exact h _ hres "src/y.py" (by decide)

/-- C1 counterexample to the claim as stated: with 21 conflicting files
the raised error message names only the first 20 conflict triples (plus
a count), so the reported set is not the complete conflict set — the
triple for `f30` is computed but absent from the report. -/
theorem acquire_locks_truncation_cex :
    acquireIsConflict truncationCexResult = true ∧
    ("f30", "b", "t2") ∈ acquireConflicts truncationCexResult ∧
    ("f30", "b", "t2") ∉ acquireReportedConflicts truncationCexResult := by
  refine ⟨by decide, by decide, by decide⟩

theorem charListLe_total (x y : List Char) :
    charListLe x y = true ∨ charListLe y x = true := by
  induction x generalizing y with
  | nil => exact Or.inl (by simp [charListLe])
  | cons a as ih =>
    rcases y with _ | ⟨b, bs⟩
    · exact Or.inr (by simp [charListLe])
    · simp only [charListLe]
      by_cases hab : a.toNat < b.toNat
      · exact Or.inl (by rw [if_pos hab])
      · by_cases hba : b.toNat < a.toNat
        · exact Or.inr (by rw [if_pos hba])
        · rcases ih bs with h | h
          · exact Or.inl (by rw [if_neg hab, if_neg hba]; exact h)
          · exact Or.inr (by rw [if_neg hba, if_neg hab]; exact h)

theorem charListLe_trans {x y z : List Char} (h1 : charListLe x y = true)
    (h2 : charListLe y z = true) : charListLe x z = true := by
  induction x generalizing y z with
  | nil => simp [charListLe]
  | cons a as ih =>
    rcases y with _ | ⟨b, bs⟩
    · simp [charListLe] at h1
    · rcases z with _ | ⟨c, cs⟩
      · simp [charListLe] at h2
      · simp only [charListLe] at h1 h2 ⊢
        by_cases hab : a.toNat < b.toNat
        · by_cases hbc : b.toNat < c.toNat
          · rw [if_pos (show a.toNat < c.toNat by omega)]
          · rw [if_neg hbc] at h2
            by_cases hcb : c.toNat < b.toNat
            · rw [if_pos hcb] at h2
              exact absurd h2 (by simp)
            · rw [if_pos (show a.toNat < c.toNat by omega)]
        · rw [if_neg hab] at h1
          by_cases hba : b.toNat < a.toNat
          · rw [if_pos hba] at h1
            exact absurd h1 (by simp)
          · rw [if_neg hba] at h1
            by_cases hbc : b.toNat < c.toNat
            · rw [if_pos (show a.toNat < c.toNat by omega)]
            · rw [if_neg hbc] at h2
              by_cases hcb : c.toNat < b.toNat
              · rw [if_pos hcb] at h2
                exact absurd h2 (by simp)
              · rw [if_neg hcb] at h2
                rw [if_neg (show ¬ a.toNat < c.toNat by omega),
                  if_neg (show ¬ c.toNat < a.toNat by omega)]
                exact ih h1 h2

theorem sorted_dedupSort (l : List String) :
    List.Sorted (fun a b => strLeB a b = true) (dedupSort l) := by
  haveI : IsTotal String (fun a b => strLeB a b = true) :=
    ⟨fun a b => charListLe_total a.data b.data⟩
  haveI : IsTrans String (fun a b => strLeB a b = true) :=
    ⟨fun _ _ _ h1 h2 => charListLe_trans h1 h2⟩
  exact List.sorted_insertionSort _ _

theorem nodup_dedupSort (l : List String) : (dedupSort l).Nodup :=
  ((List.perm_insertionSort _ _).nodup_iff).mpr (List.nodup_dedup l)

/-- Witness for C9: an untagged and an empty-tagged row both survive a
garbage-collection run that deletes a dead-session row. -/
theorem cleanup_dead_locks_keeps_untagged_witness :
    (⟨"a.txt", "a", "t1", 0, none⟩ : LockRow) ∈
      (cleanupDeadLocks ⟨true, fun _ => false⟩
        [⟨"a.txt", "a", "t1", 0, none⟩, ⟨"b.txt", "b", "t2", 0, some ""⟩,
         ⟨"c.txt", "c", "t3", 0, some "dead"⟩]).1 ∧
    (⟨"b.txt", "b", "t2", 0, some ""⟩ : LockRow) ∈
      (cleanupDeadLocks ⟨true, fun _ => false⟩
        [⟨"a.txt", "a", "t1", 0, none⟩, ⟨"b.txt", "b", "t2", 0, some ""⟩,
         ⟨"c.txt", "c", "t3", 0, some "dead"⟩]).1 := by
  constructor
  · exact cleanup_dead_locks_keeps_untagged ⟨true, fun _ => false⟩ _ _ (by simp) (Or.inl rfl)
  · exact cleanup_dead_locks_keeps_untagged ⟨true, fun _ => false⟩ _ _ (by simp) (Or.inr rfl)



/-- Validation and the first-match loop agree on argument order: an
invalid pattern reached by `_path_is_allowed` raises its validation
error. -/
theorem pathIsAllowed_error_of_head {raw : String} (path : String)
    (rest : List String) (e : String) (h : validateAllowPattern raw = .error e) :
    pathIsAllowed path (raw :: rest) = .error e := by
  simp [pathIsAllowed, pathIsAllowedGo, h]

/-- C4 (amended): pattern validation rejects with an error — not a
silent non-match — any pattern that is empty, absolute, equal to `..`,
starting with `../`, or containing `/../` after separator normalization
(a bare trailing `..` segment is the one shape it accepts, see the
counterexample); and `_path_is_allowed` raises on such a pattern when it
reaches it, in particular whenever it heads the list. -/
theorem validate_allow_pattern_rejects :
    (validateAllowPattern "" = .error "Empty allow pattern is not allowed.") ∧
    (∀ p, strStartsWith p "/" = true → exceptIsError (validateAllowPattern p) = true) ∧
    (∀ p, (strStartsWith (backslashToSlash p) "../" = true ∨
        listIsInfixOf "/../".data (backslashToSlash p).data = true ∨
        backslashToSlash p = "..") →
      exceptIsError (validateAllowPattern p) = true) ∧
    (∀ path raw rest e, validateAllowPattern raw = .error e →
      pathIsAllowed path (raw :: rest) = .error e) := by
  refine ⟨by decide, ?_, ?_, ?_⟩
  · intro p h
    by_cases hp : p = ""
    · subst hp
      decide
    · simp [validateAllowPattern, hp, h, exceptIsError]
  · intro p hesc
    by_cases hp : p = ""
    · subst hp
      rcases hesc with h | h | h <;> revert h <;> decide
    · by_cases habs : strStartsWith p "/" = true
      · simp [validateAllowPattern, hp, habs, exceptIsError]
      · rcases hesc with h | h | h <;>
          simp [validateAllowPattern, hp, habs, h, exceptIsError]
  · intro path raw rest e h
    exact pathIsAllowed_error_of_head path rest e h

/-- Witness for C4 at concrete inputs: an absolute pattern and a
`../`-pattern are rejected, and `_path_is_allowed` raises on the latter
instead of skipping it. -/
theorem validate_allow_pattern_rejects_witness :
    exceptIsError (validateAllowPattern "/etc/passwd") = true ∧
    exceptIsError (validateAllowPattern "../x") = true ∧
    pathIsAllowed "src/a.py" ["../x"] =
      .error "Allow pattern must not escape repo root" := by
  refine ⟨?_, ?_, ?_⟩
  · exact validate_allow_pattern_rejects.2.1 "/etc/passwd" (by decide)
  · exact validate_allow_pattern_rejects.2.2.1 "../x" (Or.inl (by decide))
  · exact validate_allow_pattern_rejects.2.2.2 "src/a.py" "../x" [] _ (by decide)

/-- C4 counterexample to the claim as stated: `a/..` carries a `..`
traversal segment (in final position), yet validation accepts it — the
checks only catch `../` prefixes, `/../` infixes and a bare `..`. -/
theorem validate_allow_pattern_trailing_dotdot_cex :
    validateAllowPattern "a/.." = .ok "a/.." ∧
    ['.', '.'] ∈ splitSlash "a/..".data := by
  exact ⟨by decide, by decide⟩

theorem expandAllowGo_ok_shape (fs : GlobFs) (root : String) :
    ∀ (l acc out : List String), expandAllowGo fs root l acc = .ok out →
      ∃ acc2, out = dedupSort acc2 := by
  intro l
  induction l with
  | nil =>
    intro acc out h
    simp only [expandAllowGo] at h
    cases h
    exact ⟨acc, rfl⟩
  | cons raw rest ih =>
    intro acc out h
    simp only [expandAllowGo] at h
    rcases hv : validateAllowPattern raw with e | pat <;> rw [hv] at h
    · cases h
    · exact ih _ out h

theorem expandAllowGo_ok_mem (fs : GlobFs) (root : String) :
    ∀ (l acc out : List String), expandAllowGo fs root l acc = .ok out →
      ∀ x, x ∈ out ↔ (x ∈ acc ∨ ∃ raw ∈ l, ∃ pat,
        validateAllowPattern raw = .ok pat ∧ x ∈ expandOnePat fs root pat) := by
  intro l
  induction l with
  | nil =>
    intro acc out h x
    simp only [expandAllowGo] at h
    cases h
    simp [mem_dedupSort]
  | cons raw rest ih =>
    intro acc out h x
    simp only [expandAllowGo] at h
    rcases hv : validateAllowPattern raw with e | pat <;> rw [hv] at h
    · cases h
    · rw [ih _ out h x]
      constructor
      · rintro (hx | ⟨raw2, hraw2, pat2, hv2, hx⟩)
        · rcases List.mem_append.mp hx with hx | hx
          · exact Or.inl hx
          · exact Or.inr ⟨raw, List.mem_cons_self raw rest, pat, hv, hx⟩
        · exact Or.inr ⟨raw2, List.mem_cons_of_mem _ hraw2, pat2, hv2, hx⟩
      · rintro (hx | ⟨raw2, hraw2, pat2, hv2, hx⟩)
        · exact Or.inl (List.mem_append.mpr (Or.inl hx))
        · rcases List.mem_cons.mp hraw2 with rfl | hraw2
          · rw [hv] at hv2
            cases hv2
            exact Or.inl (List.mem_append.mpr (Or.inr hx))
          · exact Or.inr ⟨raw2, hraw2, pat2, hv2, hx⟩

/-- C5 (amended): a successful expansion is a sorted duplicate-free
list; every literal (non-glob) pattern contributes its validated,
path-normalized form whether or not any such file exists; and every
other element was contributed by a glob pattern and is an existing
regular file lying inside the repository root. -/
theorem expand_allow_spec (fs : GlobFs) (root : String) (allow : List String)
    (out : List String) (h : expandAllow fs root allow = .ok out) :
    List.Sorted (fun a b => strLeB a b = true) out ∧ out.Nodup ∧
    (∀ raw ∈ allow, ∀ pat, validateAllowPattern raw = .ok pat → isGlobPat pat = false →
      posixNorm pat ∈ out) ∧
    (∀ x ∈ out,
      (∃ raw ∈ allow, ∃ pat, validateAllowPattern raw = .ok pat ∧ isGlobPat pat = false ∧
        x = posixNorm pat) ∨
      (∃ rp, fs.isFile rp = true ∧ relativeToRoot rp root = some x)) := by
  obtain ⟨acc2, hshape⟩ := expandAllowGo_ok_shape fs root allow [] out h
  have hmem := expandAllowGo_ok_mem fs root allow [] out h
  refine ⟨hshape ▸ sorted_dedupSort acc2, hshape ▸ nodup_dedupSort acc2, ?_, ?_⟩
  · intro raw hraw pat hv hglob
    refine (hmem (posixNorm pat)).mpr (Or.inr ⟨raw, hraw, pat, hv, ?_⟩)
    simp [expandOnePat, hglob]
  · intro x hx
    rcases (hmem x).mp hx with hx2 | ⟨raw, hraw, pat, hv, hx2⟩
    · cases hx2
    · by_cases hglob : isGlobPat pat = true
      · right
        rw [expandOnePat, if_neg (by simp [hglob])] at hx2
        rcases List.mem_filterMap.mp hx2 with ⟨m, _, hsome⟩
        rcases hres : fs.resolve m with _ | rp <;> rw [hres] at hsome
        · cases hsome
        · have hsome2 : (if fs.isFile rp = true then relativeToRoot rp root else none) =
              some x := hsome
          by_cases hfile : fs.isFile rp = true
          · rw [if_pos hfile] at hsome2
            exact ⟨rp, hfile, hsome2⟩
          · rw [if_neg hfile] at hsome2
            cases hsome2
      · left
        have hglob2 : isGlobPat pat = false := by simpa using hglob
        rw [expandOnePat, if_pos (by simp [hglob2])] at hx2
        have hxe := List.mem_singleton.mp hx2
        subst hxe
        exact ⟨raw, hraw, pat, hv, hglob2, rfl⟩

/-- Witness for C5 at concrete inputs: a glob pattern plus a literal
pattern for a file that does not exist; the literal still appears in the
(sorted) output. -/
theorem expand_allow_spec_witness :
    expandAllow oneFileGlobFs "/repo" ["src/*.py", "lib/new.txt"] =
      .ok ["lib/new.txt", "src/a.py"] ∧
    posixNorm "lib/new.txt" ∈ ["lib/new.txt", "src/a.py"] := by
  refine ⟨by decide, ?_⟩
  exact (expand_allow_spec oneFileGlobFs "/repo" ["src/*.py", "lib/new.txt"]
    ["lib/new.txt", "src/a.py"] (by decide)).2.2.1 "lib/new.txt" (by decide)
    "lib/new.txt" (by decide) (by decide)

/-- C5 counterexample to the claim as stated: the literal input pattern
`./a.txt` does not appear verbatim in the expansion — validation strips
the leading `./`, so the output holds `a.txt` instead. -/
theorem expand_allow_verbatim_cex :
    expandAllow emptyGlobFs "/repo" ["./a.txt"] = .ok ["a.txt"] ∧
    "./a.txt" ∉ ["a.txt"] := by
  exact ⟨by decide, by decide⟩

theorem hookLockLoop_mono (agent task : String) (now : Nat) :
    ∀ (staged : List String) (t : LockTable) (x : LockRow), x ∈ t →
      x ∈ (hookLockLoop agent task now staged t).1 := by
  intro staged
  induction staged with
  | nil =>
    intro t x hx
    simpa [hookLockLoop] using hx
  | cons rel rest ih =>
    intro t x hx
    simp only [hookLockLoop]
    rcases hf : t.find? fun r => r.file = rel with _ | r <;> rw [hf] <;> simp only []
    · exact ih _ x (List.mem_append_left _ hx)
    · by_cases hown : r.agent = agent ∧ r.task = task
      · rw [if_pos hown]
        exact ih t x hx
      · rw [if_neg hown]
        exact ih t x hx

theorem hookLockLoop_ok_owner (agent task : String) (now : Nat) :
    ∀ (staged : List String) (t : LockTable),
      (hookLockLoop agent task now staged t).2 = [] →
      ∀ p ∈ staged, ∃ r ∈ (hookLockLoop agent task now staged t).1,
        r.file = p ∧ r.agent = agent ∧ r.task = task := by
  intro staged
  induction staged with
  | nil =>
    intro t _ p hp
    cases hp
  | cons rel rest ih =>
    intro t h p hp
    simp only [hookLockLoop] at h ⊢
    rcases hf : t.find? fun r => r.file = rel with _ | r <;> rw [hf] at h ⊢ <;>
      simp only [] at h ⊢
    · rcases List.mem_cons.mp hp with rfl | hp2
      · exact ⟨⟨p, agent, task, now, some ""⟩,
          hookLockLoop_mono agent task now rest _ _ (List.mem_append_right _ (by simp)),
          rfl, rfl, rfl⟩
      · exact ih _ h p hp2
    · by_cases hown : r.agent = agent ∧ r.task = task
      · rw [if_pos hown] at h ⊢
        rcases List.mem_cons.mp hp with rfl | hp2
        · refine ⟨r, hookLockLoop_mono agent task now rest t r
            (List.mem_of_find?_eq_some hf), ?_, hown.1, hown.2⟩
          simpa using List.find?_some hf
        · exact ih t h p hp2
      · rw [if_neg hown] at h
        simp at h

theorem hookLockLoop_fresh_insert (agent task : String) (now : Nat) :
    ∀ (staged : List String) (t : LockTable) (p : String), p ∈ staged →
      (∀ r ∈ t, r.file ≠ p) →
      (⟨p, agent, task, now, some ""⟩ : LockRow) ∈
        (hookLockLoop agent task now staged t).1 := by
  intro staged
  induction staged with
  | nil =>
    intro t p hp
    cases hp
  | cons rel rest ih =>
    intro t p hp hfresh
    simp only [hookLockLoop]
    by_cases hrel : rel = p
    · subst hrel
      rcases hf : t.find? fun r => r.file = rel with _ | r <;> rw [hf] <;>
        simp only []
      · exact hookLockLoop_mono agent task now rest _ _
          (List.mem_append_right _ (by simp))
      · exact absurd (by simpa using List.find?_some hf)
          (hfresh r (List.mem_of_find?_eq_some hf))
    · have hp2 : p ∈ rest := by
        rcases List.mem_cons.mp hp with h | h
        · exact absurd h.symm hrel
        · exact h
      rcases hf : t.find? fun r => r.file = rel with _ | r <;> rw [hf] <;>
        simp only []
      · refine ih _ p hp2 ?_
        intro r hr
        rcases List.mem_append.mp hr with hr | hr
        · exact hfresh r hr
        · have := List.mem_singleton.mp hr
          subst this
          simpa using hrel
      · by_cases hown : r.agent = agent ∧ r.task = task
        · rw [if_pos hown]
          exact ih t p hp2 hfresh
        · rw [if_neg hown]
          exact ih t p hp2 hfresh

/-- C10: a successful pre-commit check is not read-only — afterwards
every staged path carries a lock row owned by the committing
(agent, task), and any staged path that had no lock row at all now has a
freshly inserted row with the empty session tag. -/
theorem hook_pre_commit_locks_staged (t : LockTable) (staged : List String)
    (agent task : String) (allow : List String) (now : Nat) (t2 : LockTable)
    (h : hookPreCommit t staged agent task allow now = .ok t2) :
    (∀ p ∈ staged, ∃ r ∈ t2, r.file = p ∧ r.agent = agent ∧ r.task = task) ∧
    (∀ p ∈ staged, (∀ r ∈ t, r.file ≠ p) →
      (⟨p, agent, task, now, some ""⟩ : LockRow) ∈ t2) := by
  unfold hookPreCommit at h
  by_cases hemp : staged.isEmpty = true
  · rw [List.isEmpty_iff] at hemp
    subst hemp
    exact ⟨fun p hp => absurd hp (by simp), fun p hp => absurd hp (by simp)⟩
  · rw [if_neg (by simpa using hemp)] at h
    rcases hsna : stagedNotAllowed allow staged with e | bad <;> rw [hsna] at h <;>
      simp only [] at h
    · cases h
    · by_cases hbad : bad.isEmpty = true
      · rw [if_neg (by simp [hbad])] at h
        by_cases hcs : (hookLockLoop agent task now staged t).2.isEmpty = true
        · rw [if_pos hcs] at h
          injection h with h2
          subst h2
          rw [List.isEmpty_iff] at hcs
          exact ⟨hookLockLoop_ok_owner agent task now staged t hcs,
            fun p hp hfresh => hookLockLoop_fresh_insert agent task now staged t p hp hfresh⟩
        · rw [if_neg hcs] at h
          cases h
      · rw [if_pos (by simpa using hbad)] at h
        cases h

/-- Witness for C10 at concrete inputs: committing a staged file with no
existing lock row inserts the row (empty session tag) for the committer. -/
theorem hook_pre_commit_locks_staged_witness :
    hookPreCommit [] ["src/a.py"] "a" "t1" ["src/*.py"] 7 =
      .ok [⟨"src/a.py", "a", "t1", 7, some ""⟩] ∧
    (⟨"src/a.py", "a", "t1", 7, some ""⟩ : LockRow) ∈
      [(⟨"src/a.py", "a", "t1", 7, some ""⟩ : LockRow)] := by
  have heval : hookPreCommit [] ["src/a.py"] "a" "t1" ["src/*.py"] 7 =
      .ok [⟨"src/a.py", "a", "t1", 7, some ""⟩] := by
    simp [hookPreCommit, stagedNotAllowed, pathIsAllowed, pathIsAllowedGo,
      validateAllowPattern, fnmatchB, globMatch, parseCharClass, findCloseBracket,
      hookLockLoop, backslashToSlash, lstripDotSlash, strStartsWith, listIsInfixOf,
      isGlobPat]
  refine ⟨heval, ?_⟩
  exact (hook_pre_commit_locks_staged [] ["src/a.py"] "a" "t1" ["src/*.py"] 7 _
    heval).2 "src/a.py" (by simp) (by simp)

theorem readJournalGo_spec (decode : String → Option JournalFields) :
    ∀ (lines : List String) (idx : Nat),
      (∀ e ∈ (readJournalGo decode lines idx).1,
        idx ≤ e.index ∧ ∃ raw, lines[e.index - idx]? = some raw ∧ pyStrip raw ≠ "" ∧
          decode (pyStrip raw) = some ⟨e.ts, e.sha, e.agent, e.task, e.files⟩) ∧
      ((readJournalGo decode lines idx).1.map fun e => e.index).Pairwise (· < ·) := by
  intro lines
  induction lines with
  | nil =>
    intro idx
    constructor
    · intro e he
      simp [readJournalGo] at he
    · simp [readJournalGo]
  | cons raw rest ih =>
    intro idx
    simp only [readJournalGo]
    by_cases hstrip : pyStrip raw = ""
    · rw [if_pos hstrip]
      constructor
      · intro e he
        obtain ⟨hle, r2, hr2, hne, hdec⟩ := (ih (idx + 1)).1 e he
        refine ⟨by omega, r2, ?_, hne, hdec⟩
        rw [show e.index - idx = (e.index - (idx + 1)) + 1 by omega,
          List.getElem?_cons_succ]
        exact hr2
      · exact (ih (idx + 1)).2
    · rw [if_neg hstrip]
      rcases hdec : decode (pyStrip raw) with _ | f <;> simp only []
      · constructor
        · intro e he
          obtain ⟨hle, r2, hr2, hne, hdec2⟩ := (ih (idx + 1)).1 e he
          refine ⟨by omega, r2, ?_, hne, hdec2⟩
          rw [show e.index - idx = (e.index - (idx + 1)) + 1 by omega,
            List.getElem?_cons_succ]
          exact hr2
        · exact (ih (idx + 1)).2
      · constructor
        · intro e he
          rcases List.mem_cons.mp he with rfl | he2
          · refine ⟨le_refl idx, raw, ?_, hstrip, ?_⟩
            · rw [Nat.sub_self]
              simp
            · rw [hdec]
          · obtain ⟨hle, r2, hr2, hne, hdec2⟩ := (ih (idx + 1)).1 e he2
            refine ⟨by omega, r2, ?_, hne, hdec2⟩
            rw [show e.index - idx = (e.index - (idx + 1)) + 1 by omega,
              List.getElem?_cons_succ]
            exact hr2
        · simp only [List.map_cons]
          refine List.Pairwise.cons ?_ ((ih (idx + 1)).2)
          intro b hb
          rcases List.mem_map.mp hb with ⟨e, he, rfl⟩
          have := ((ih (idx + 1)).1 e he).1
          omega

theorem entryLe_total (a b : JournalEntry) : entryLe a b ∨ entryLe b a := by
  unfold entryLe
  rcases lt_trichotomy a.ts b.ts with h | h | h
  · exact Or.inl (Or.inl h)
  · rcases le_total a.index b.index with h2 | h2
    · exact Or.inl (Or.inr ⟨h, h2⟩)
    · exact Or.inr (Or.inr ⟨h.symm, h2⟩)
  · exact Or.inr (Or.inl h)

theorem entryLe_trans {a b c : JournalEntry} (h1 : entryLe a b) (h2 : entryLe b c) :
    entryLe a c := by
  unfold entryLe at h1 h2 ⊢
  rcases h1 with h1 | ⟨h1e, h1i⟩ <;> rcases h2 with h2 | ⟨h2e, h2i⟩
  · exact Or.inl (lt_trans h1 h2)
  · exact Or.inl (h2e ▸ h1)
  · exact Or.inl (h1e ▸ h2)
  · exact Or.inr ⟨h1e.trans h2e, le_trans h1i h2i⟩

/-- C8: `cmd_changes` returns exactly the filtered journal entries
(a permutation), every entry carries as its index the original line
position at which its record decodes, and the output is strictly
ordered by the key (timestamp, index) — distinct timestamps in
timestamp order, equal timestamps in original write order. -/
theorem cmd_changes_ordered (decode : String → Option JournalFields)
    (lines : List String) (sinceTs : Option Int) (agentF taskF : Option String) :
    (∀ e ∈ (readJournalEntries decode lines).1, ∃ raw, lines[e.index]? = some raw ∧
      pyStrip raw ≠ "" ∧
      decode (pyStrip raw) = some ⟨e.ts, e.sha, e.agent, e.task, e.files⟩) ∧
    (cmdChanges decode lines sinceTs agentF taskF).Perm
      ((readJournalEntries decode lines).1.filter (changesFilter sinceTs agentF taskF)) ∧
    (cmdChanges decode lines sinceTs agentF taskF).Pairwise
      (fun a b => a.ts < b.ts ∨ (a.ts = b.ts ∧ a.index < b.index)) := by
  have hspec := readJournalGo_spec decode lines 0
  refine ⟨?_, ?_, ?_⟩
  · intro e he
    obtain ⟨_, raw, hraw, hne, hdec⟩ := hspec.1 e he
    refine ⟨raw, ?_, hne, hdec⟩
    simpa using hraw
  · exact List.perm_insertionSort _ _
  · haveI : IsTotal JournalEntry entryLe := ⟨entryLe_total⟩
    haveI : IsTrans JournalEntry entryLe := ⟨fun _ _ _ => entryLe_trans⟩
    have hsorted : List.Sorted entryLe (cmdChanges decode lines sinceTs agentF taskF) :=
      List.sorted_insertionSort _ _
    have hfiltpw : (((readJournalEntries decode lines).1.filter
        (changesFilter sinceTs agentF taskF)).map fun e => e.index).Pairwise (· < ·) :=
      hspec.2.sublist ((List.filter_sublist _).map _)
    have hperm : ((cmdChanges decode lines sinceTs agentF taskF).map fun e => e.index).Perm
        (((readJournalEntries decode lines).1.filter
          (changesFilter sinceTs agentF taskF)).map fun e => e.index) :=
      (List.perm_insertionSort _ _).map _
    have hnd : ((cmdChanges decode lines sinceTs agentF taskF).map
        fun e => e.index).Nodup :=
      hperm.nodup_iff.mpr (hfiltpw.imp fun h => Nat.ne_of_lt h)
    have hpw2 : (cmdChanges decode lines sinceTs agentF taskF).Pairwise
        fun a b => a.index ≠ b.index := List.pairwise_map.mp hnd
    refine (hsorted.and hpw2).imp ?_
    rintro a b ⟨hle, hne⟩
    rcases hle with h | ⟨he, hi⟩
    · exact Or.inl h
    · exact Or.inr ⟨he, lt_of_le_of_ne hi hne⟩

/-- Witness for C8 at concrete inputs: two entries sharing a timestamp
around a malformed line come back in original write order, and the
output is exactly the parsed set. -/
theorem cmd_changes_ordered_witness :
    (cmdChanges twoLineDecode twoLineJournal none none none).Perm
      ((readJournalEntries twoLineDecode twoLineJournal).1.filter
        (changesFilter none none none)) ∧
    cmdChanges twoLineDecode twoLineJournal none none none =
      [⟨5, "sha1", "a", "t1", "x.py", 0⟩, ⟨5, "sha2", "a", "t1", "y.py", 2⟩] := by
  refine ⟨(cmd_changes_ordered twoLineDecode twoLineJournal none none none).2.1, ?_⟩
  decide

theorem wordsAux_all_nonspace : ∀ (l acc : List Char), l ≠ [] →
    (∀ c ∈ l, c.isWhitespace = false) → wordsAux l acc = [acc.reverse ++ l] := by
  intro l
  induction l with
  | nil =>
    intro acc h
    exact absurd rfl h
  | cons c rest ih =>
    intro acc _ hns
    simp only [wordsAux]
    rw [if_neg (by simp [hns c (List.mem_cons_self c rest)])]
    rcases Decidable.em (rest = []) with rfl | hrest
    · simp [wordsAux]
    · rw [ih (c :: acc) hrest fun d hd => hns d (List.mem_cons_of_mem _ hd)]
      simp

theorem lastToken_code_path (c1 c2 : Char) (pd : List Char)
    (h1 : c1.isWhitespace = false) (h2 : c2.isWhitespace = false) (hne : pd ≠ [])
    (hns : ∀ c ∈ pd, c.isWhitespace = false) :
    lastToken ⟨c1 :: c2 :: ' ' :: pd⟩ = ⟨pd⟩ := by
  unfold lastToken pySplitWs
  have hw : wordsAux (c1 :: c2 :: ' ' :: pd) [] = [[c1, c2], pd] := by
    simp only [wordsAux]
    rw [if_neg (by simp [h1]), if_neg (by simp [h2]),
      if_pos (by decide : (' ').isWhitespace = true)]
    rw [if_neg (by simp), wordsAux_all_nonspace pd [] hne hns]
    simp
  rw [show (⟨c1 :: c2 :: ' ' :: pd⟩ : String).data = c1 :: c2 :: ' ' :: pd from rfl, hw]
  simp

/-- C2: after a failed `git merge`, status lines carrying unmerged-path
markers make `cmd_merge` return exit status 1 — distinct from the
generic error status 2 — report exactly the conflicting paths (the last
whitespace-separated token of each marker line, which is the path itself
whenever the path holds no whitespace), leave the in-progress merge
intact, and skip both the lock release and the branch deletion; a merge
failure without such markers instead aborts the merge and surfaces as
the generic error, also without releasing locks or deleting the
branch. -/
theorem merge_conflict_handling (statusLines : List String) :
    (statusLines.any isUnmergedLine = true →
      mergeFailureStep statusLines =
        { exitCode := 1, mergeAborted := false, locksReleased := false,
          branchDeleted := false,
          conflictFiles := (statusLines.filter isUnmergedLine).map lastToken }) ∧
    (statusLines.any isUnmergedLine = false →
      mergeFailureStep statusLines =
        { exitCode := 2, mergeAborted := true, locksReleased := false,
          branchDeleted := false, conflictFiles := [] }) ∧
    (∀ code p, (code = "UU " ∨ code = "AA " ∨ code = "DD ") → p.data ≠ [] →
      (∀ c ∈ p.data, c.isWhitespace = false) → lastToken (code ++ p) = p) := by
  refine ⟨?_, ?_, ?_⟩
  · intro h
    simp [mergeFailureStep, h]
  · intro h
    simp [mergeFailureStep, h]
  · intro code p hcode hne hns
    obtain ⟨pd⟩ := p
    have hdata : ∀ c1 c2 : Char, code = ⟨[c1, c2, ' ']⟩ →
        code ++ (⟨pd⟩ : String) = ⟨c1 :: c2 :: ' ' :: pd⟩ := by
      rintro c1 c2 rfl
      rfl
    rcases hcode with rfl | rfl | rfl
    · rw [hdata 'U' 'U' rfl]
      exact lastToken_code_path 'U' 'U' pd (by decide) (by decide)
        (by simpa using hne) (by simpa using hns)
    · rw [hdata 'A' 'A' rfl]
      exact lastToken_code_path 'A' 'A' pd (by decide) (by decide)
        (by simpa using hne) (by simpa using hns)
    · rw [hdata 'D' 'D' rfl]
      exact lastToken_code_path 'D' 'D' pd (by decide) (by decide)
        (by simpa using hne) (by simpa using hns)

/-- Witness for C2 at concrete inputs: a conflicted status yields exit 1
with the conflicting path and no cleanup; a markerless failure yields
the aborted generic error. -/
theorem merge_conflict_handling_witness :
    mergeFailureStep ["UU src/a.py", "M  b.txt"] =
      { exitCode := 1, mergeAborted := false, locksReleased := false,
        branchDeleted := false, conflictFiles := ["src/a.py"] } ∧
    mergeFailureStep ["fatal: bad object"] =
      { exitCode := 2, mergeAborted := true, locksReleased := false,
        branchDeleted := false, conflictFiles := [] } ∧
    lastToken ("UU " ++ "src/a.py") = "src/a.py" := by
  refine ⟨?_, ?_, ?_⟩
  · rw [(merge_conflict_handling ["UU src/a.py", "M  b.txt"]).1 (by decide)]
    decide
  · exact (merge_conflict_handling ["fatal: bad object"]).2.1 (by decide)
  · exact (merge_conflict_handling []).2.2 "UU " "src/a.py" (Or.inl rfl) (by decide)
      (by decide)

/-- C6: rollback control flow.  A target that is not an ancestor of the
agent branch fails with no revert performed and the branch history
untouched; an empty `to..HEAD` range succeeds as a no-op creating no
commit; a revert conflict aborts the revert and fails with the history
untouched (no half-applied state survives); otherwise exactly one
combined revert commit is created on top of the branch while every
original commit stays in the history. -/
theorem rollback_spec (env : RollbackEnv) :
    (env.branchExists = true → env.isAncestor = false →
      cmdRollback env = .error env.history) ∧
    (env.branchExists = true → env.isAncestor = true → env.worktreeClean = true →
      env.countInRange = 0 → cmdRollback env = .noop env.history) ∧
    (env.branchExists = true → env.isAncestor = true → env.worktreeClean = true →
      env.countInRange ≠ 0 → env.revertOk = false →
      cmdRollback env = .error env.history) ∧
    (env.branchExists = true → env.isAncestor = true → env.worktreeClean = true →
      env.countInRange ≠ 0 → env.revertOk = true →
      cmdRollback env = .ok env.newSha (env.newSha :: env.history)) := by
  refine ⟨?_, ?_, ?_, ?_⟩
  · intro h1 h2
    simp [cmdRollback, h1, h2]
  · intro h1 h2 h3 h4
    simp [cmdRollback, h1, h2, h3, h4]
  · intro h1 h2 h3 h4 h5
    simp [cmdRollback, h1, h2, h3, h4, h5]
  · intro h1 h2 h3 h4 h5
    simp [cmdRollback, h1, h2, h3, h4, h5]

/-- Witness for C6 at concrete inputs: a fully successful rollback of a
three-commit range adds exactly one revert commit on top of the intact
history, and a non-ancestor target fails with the history untouched. -/
theorem rollback_spec_witness :
    cmdRollback rollbackOkEnv = .ok "r9" ["r9", "c3", "c2", "c1"] ∧
    cmdRollback { rollbackOkEnv with isAncestor := false } =
      .error ["c3", "c2", "c1"] := by
  constructor
  · exact (rollback_spec rollbackOkEnv).2.2.2 rfl rfl rfl (by decide) rfl
  · exact (rollback_spec { rollbackOkEnv with isAncestor := false }).1 rfl rfl

theorem waitMeasure_step (maxWait start now d : ℚ) (hd : 1 / 20 ≤ d)
    (hlt : now - start < maxWait) :
    (Int.ceil (20 * (maxWait - (now + d - start)))).toNat <
      (Int.ceil (20 * (maxWait - (now - start)))).toNat := by
  have hX : 0 < maxWait - (now - start) := by linarith
  have h0 : 0 < Int.ceil (20 * (maxWait - (now - start))) :=
    Int.ceil_pos.mpr (by linarith)
  have h2 : Int.ceil (20 * (maxWait - (now + d - start))) ≤
      Int.ceil (20 * (maxWait - (now - start))) - 1 := by
    have hle : 20 * (maxWait - (now + d - start)) ≤
        20 * (maxWait - (now - start)) - 1 := by linarith
    calc Int.ceil (20 * (maxWait - (now + d - start)))
        ≤ Int.ceil (20 * (maxWait - (now - start)) - 1) := Int.ceil_le_ceil hle
      _ = Int.ceil (20 * (maxWait - (now - start))) - 1 := by
          rw [show (20 * (maxWait - (now - start)) - 1 : ℚ) =
            20 * (maxWait - (now - start)) - ((1 : ℤ) : ℚ) by push_cast; ring]
          exact Int.ceil_sub_int _ 1
  omega

theorem waitLoop_fuel_bound (env : WtEnv) (debounce maxWait poll start : ℚ)
    (hpoll : 1 / 20 ≤ poll) :
    ∀ (fuel : Nat) (now : ℚ),
      (Int.ceil (20 * (maxWait - (now - start)))).toNat < fuel →
      waitLoop env debounce maxWait poll start fuel now ≠ .fuelOut := by
  intro fuel
  induction fuel with
  | zero =>
    intro now h
    omega
  | succ n ih =>
    intro now hm
    simp only [waitLoop]
    by_cases hd : env.dirty now = false
    · rw [if_pos hd]
      simp
    · rw [if_neg hd]
      by_cases hq : debounce ≤
          (if env.latestMtime now = 0 then debounce else now - env.latestMtime now)
      · rw [if_pos hq]
        simp
      · rw [if_neg hq]
        by_cases ht : maxWait ≤ now - start
        · rw [if_pos ht]
          simp
        · rw [if_neg ht]
          apply ih
          have hstep := waitMeasure_step maxWait start now
            (min poll (max (1 / 20)
              (debounce - (if env.latestMtime now = 0 then debounce
                else now - env.latestMtime now))))
            (le_min hpoll (le_max_left _ _)) (by linarith [not_le.mp ht])
          omega

theorem waitLoop_timeout_under_writes (env : WtEnv)
    (debounce maxWait poll start : ℚ) (hpoll : 1 / 20 ≤ poll)
    (hdirty : ∀ t, env.dirty t = true) (hlm : ∀ t, env.latestMtime t ≠ 0)
    (hfresh : ∀ t, t - env.latestMtime t < debounce) :
    ∀ (fuel : Nat) (now : ℚ),
      (Int.ceil (20 * (maxWait - (now - start)))).toNat < fuel →
      waitLoop env debounce maxWait poll start fuel now = .timeout := by
  intro fuel
  induction fuel with
  | zero =>
    intro now h
    omega
  | succ n ih =>
    intro now hm
    simp only [waitLoop]
    rw [if_neg (by simp [hdirty now]), if_neg (hlm now)]
    rw [if_neg (by simpa using not_le.mpr (hfresh now))]
    by_cases ht : maxWait ≤ now - start
    · rw [if_pos ht]
    · rw [if_neg ht]
      apply ih
      have hstep := waitMeasure_step maxWait start now
        (min poll (max (1 / 20) (debounce - (now - env.latestMtime now))))
        (le_min hpoll (le_max_left _ _)) (by linarith [not_le.mp ht])
      omega

/-- C7: the snapshot debounce wait terminates on every execution — with
fuel `⌈20 · maxWait⌉ + 1` (one loop iteration consumes at least the
minimum 0.05-second sleep) the loop never exhausts its fuel, returning
quiet or raising the timeout; and under continuous writes that never
leave the tree quiet for `debounce` seconds it raises the timeout once
`maxWait` elapses. -/
theorem wait_for_worktree_quiet_spec (env : WtEnv) (debounce maxWait poll : ℚ)
    (hpoll : 1 / 20 ≤ poll) :
    (waitForWorktreeQuiet env debounce maxWait poll
        ((Int.ceil (20 * maxWait)).toNat + 1) ≠ .fuelOut) ∧
    (0 < debounce → (∀ t, env.dirty t = true) → (∀ t, env.latestMtime t ≠ 0) →
      (∀ t, t - env.latestMtime t < debounce) →
      waitForWorktreeQuiet env debounce maxWait poll
        ((Int.ceil (20 * maxWait)).toNat + 1) = .timeout) := by
  constructor
  · unfold waitForWorktreeQuiet
    by_cases hdQ : debounce ≤ 0
    · rw [if_pos hdQ]
      simp
    · rw [if_neg hdQ]
      apply waitLoop_fuel_bound env debounce maxWait poll 0 hpoll
      rw [show maxWait - ((0 : ℚ) - 0) = maxWait by ring]
      omega
  · intro hdeb hdirty hlm hfresh
    unfold waitForWorktreeQuiet
    rw [if_neg (by linarith)]
    apply waitLoop_timeout_under_writes env debounce maxWait poll 0 hpoll
      hdirty hlm hfresh
    rw [show maxWait - ((0 : ℚ) - 0) = maxWait by ring]
    omega

/-- Witness for C7 at concrete inputs: a workspace whose newest mtime
always trails the probe by less than the one-second debounce hits the
two-second timeout rather than looping forever. -/
theorem wait_for_worktree_quiet_spec_witness :
    waitForWorktreeQuiet contWriteEnv 1 2 (1 / 2)
      ((Int.ceil ((20 : ℚ) * 2)).toNat + 1) = .timeout := by
  refine (wait_for_worktree_quiet_spec contWriteEnv 1 2 (1 / 2)
    (by norm_num)).2 (by norm_num) (fun t => rfl) (fun t => ?_) (fun t => ?_)
  · have h1 : (0 : ℚ) < max t 1 := lt_of_lt_of_le one_pos (le_max_right t 1)
    exact ne_of_gt h1
  · rcases le_total t 1 with h | h
    · rw [show contWriteEnv.latestMtime t = max t 1 from rfl, max_eq_right h]
      linarith
    · rw [show contWriteEnv.latestMtime t = max t 1 from rfl, max_eq_left h]
      linarith

end Hydra
